import Mathlib

/-!
Verification of the h5 serialization layer (TRIQS/h5).

This file gives a shallow embedding of the pure logic of the library:
the stride-reconciliation algorithm `get_parent_shape_and_h5_strides`,
the chunk-dimension derivation in `array_interface::write`, the
validation logic of `array_interface::read`, `write_slice` and
`write_attribute`, the format-tag assertion, the char-buffer string
table codec, and the `std::optional` read/write wrappers.  Machine
integers (`hsize_t`, `size_t`) are modelled as `Nat`; all arithmetic
performed by the code stays well below 2^64, so no modular reduction is
needed.  C++ integer division is `Nat` division.
-/

namespace h5

/-- HDF5 class identifier of string datatypes (`H5T_STRING`). -/
def H5T_STRING : Nat := 3

/-- An HDF5 datatype, abstracted as its class (`H5Tget_class`) together
with an identifier distinguishing the exact types within a class
(`H5Tequal` compares the full datatype). -/
structure datatype where
  cls : Nat
  ident : Nat
deriving DecidableEq

/-- `hdf5_type_equal` (object.cpp): strings are compared by class only;
all other types by exact (`H5Tequal`) equality. -/
def hdf5_type_equal (dt1 dt2 : datatype) : Bool :=
  if dt1.cls = H5T_STRING then decide (dt2.cls = H5T_STRING) else decide (dt1 = dt2)

/-- A group, reduced to its children: an association list of names to
stored payloads.  The handle layer keeps child names unique. -/
structure group (α : Type) where
  children : List (String × α)
deriving DecidableEq

/-- `group::has_key` (group.cpp): `H5Lexists`. -/
def group.has_key {α : Type} (g : group α) (key : String) : Bool :=
  (g.children.lookup key).isSome

/-- `group::unlink` (group.cpp) with `error_if_absent = false`: remove
the link with the given name if present, otherwise do nothing. -/
def group.unlink {α : Type} (g : group α) (key : String) : group α :=
  if g.has_key key then ⟨g.children.filter (fun p => p.1 != key)⟩ else g

namespace array_interface

/-- An HDF5 hyperslab (array_interface.hpp). -/
structure hyperslab where
  offset : List Nat
  stride : List Nat
  count : List Nat
  block : List Nat
deriving DecidableEq

/-- `hyperslab::empty`: a default-constructed slab has an empty `count`. -/
def hyperslab.empty (sl : hyperslab) : Bool := sl.count.isEmpty

/-- `hyperslab::shape`: per-dimension `count[d] * block[d]`. -/
def hyperslab.shape (sl : hyperslab) : List Nat := List.zipWith (· * ·) sl.count sl.block

/-- `hyperslab::size`: the product of the shape entries. -/
def hyperslab.size (sl : hyperslab) : Nat := sl.shape.prod

/-- An array view (array_interface.hpp): datatype, parent shape and
hyperslab selection.  The raw memory pointer is not modelled. -/
structure array_view where
  ty : datatype
  parent_shape : List Nat
  slab : hyperslab
  is_complex : Bool
deriving DecidableEq

/-- Basic information about an HDF5 dataset (array_interface.hpp). -/
structure dataset_info where
  lengths : List Nat
  ty : datatype
  has_complex_attribute : Bool
deriving DecidableEq

/-- Failure kinds surfaced by the array-interface validation checks. -/
inductive h5_error where
  | incompatibleTypes
  | incompatibleSizes
deriving DecidableEq

/-- Inner gcd loop of `get_parent_shape_and_h5_strides`
(array_interface.cpp): gcd of `h5_strides[u], h5_strides[u-1], ..., h5_strides[0]`.
The C++ folds from index `u` downward; `Nat.gcd` is associative and
commutative, so folding from index `0` upward yields the same value. -/
def inner_gcd (h5 : List Nat) : Nat → Nat
  | 0 => h5.getD 0 0
  | v + 1 => Nat.gcd (h5.getD (v + 1) 0) (inner_gcd h5 v)

/-- Third inner loop of `get_parent_shape_and_h5_strides`: divide the
strides at positions `0..u` by `g`, leaving the rest unchanged. -/
def div_strides (h5 : List Nat) (g : Nat) : Nat → List Nat
  | u =>
    match h5, u with
    | [], _ => []
    | x :: t, 0 => x / g :: t
    | x :: t, u' + 1 => x / g :: div_strides t g u'

/-- Outer loop of `get_parent_shape_and_h5_strides`, iterating
`u = rank - 2, ..., 0`: compute the gcd of the strides at positions
`0..u`, store it in `parent_shape[u + 1]` and divide the strides at
positions `0..u` by it. -/
def gps_loop (ps h5 : List Nat) : Nat → List Nat × List Nat
  | 0 => (ps.set 1 (inner_gcd h5 0), div_strides h5 (inner_gcd h5 0) 0)
  | u + 1 => gps_loop (ps.set (u + 2) (inner_gcd h5 (u + 1))) (div_strides h5 (inner_gcd h5 (u + 1)) (u + 1)) u

/-- `get_parent_shape_and_h5_strides` (array_interface.cpp): given the
numpy-style strides of a view and the number of elements of the view,
produce a consistent parent shape and HDF5 strides.  `np_strides` is the
list of the `rank` strides passed through the pointer argument. -/
def get_parent_shape_and_h5_strides (np_strides : List Nat) (rank : Nat) (view_size : Nat) :
    List Nat × List Nat :=
  if rank = 0 then ([], [])
  else if view_size = 0 then (List.replicate rank 0, List.replicate rank 1)
  else
    -- v_t parent_shape(rank) is zero-initialized, then parent_shape[0] = view_size
    let parent_shape := (List.replicate rank 0).set 0 view_size
    -- the loop `for (int u = rank - 2; u >= 0; --u)` runs only for rank >= 2
    if rank = 1 then (parent_shape, np_strides)
    else gps_loop parent_shape np_strides (rank - 2)

/-- Validation logic of `array_interface::read` (array_interface.cpp),
as a function of the view, the stored dataset's info and the source slab
(`sl.empty()` meaning "whole dataset").  On success it returns whether
the soft type-mismatch warning was printed to `std::cerr`; the actual
byte transfer is not modelled. -/
def read (v : array_view) (ds_info : dataset_info) (sl : hyperslab) : Except h5_error Bool :=
  if v.ty.cls ≠ ds_info.ty.cls then Except.error h5_error.incompatibleTypes
  else
    let warn := ! hdf5_type_equal v.ty ds_info.ty
    let sl_size := if sl.empty then ds_info.lengths.prod else sl.size
    if sl_size ≠ v.slab.size then Except.error h5_error.incompatibleSizes
    else Except.ok warn

/-- Validation logic of `array_interface::write_slice`
(array_interface.cpp): an empty target slab returns immediately;
otherwise the element counts and then the datatypes must match. -/
def write_slice (v : array_view) (ds_ty : datatype) (sl : hyperslab) : Except h5_error Unit :=
  if sl.empty then Except.ok ()
  else if v.slab.size ≠ sl.size then Except.error h5_error.incompatibleSizes
  else if ! hdf5_type_equal v.ty ds_ty then Except.error h5_error.incompatibleTypes
  else Except.ok ()

/-- State effect of `array_interface::write` on the group's children:
the name is first unlinked, then the dataset is created anew
(`H5Dcreate2`).  Chunking, compression and the byte transfer are not
modelled here. -/
def write {α : Type} (g : group α) (name : String) (payload : α) : group α :=
  ⟨(g.unlink name).children ++ [(name, payload)]⟩

/-- `array_interface::write_attribute` (array_interface.cpp): creating
an attribute that already exists fails (`H5LTfind_attribute`); otherwise
the attribute is created. -/
def write_attribute {α : Type} (attrs : List (String × α)) (name : String) (payload : α) :
    Except String (List (String × α)) :=
  if (attrs.lookup name).isSome then Except.error "AlreadyExists"
  else Except.ok (attrs ++ [(name, payload)])

/-- Hard ceiling on the chunk byte size in `array_interface::write`:
`2^32 - 1` bytes. -/
def max_chunk_size : Nat := 2 ^ 32 - 1

/-- `std::clamp(v, lo, hi)`. -/
def clamp (v lo hi : Nat) : Nat := if v < lo then lo else if hi < v then hi else v

/-- One iteration of the chunk-shape loop in `array_interface::write`:
given the hyperslab extent of the current dimension and the state
`(chunk_size, chunk dims of the already processed faster dimensions)`,
clamp the extent to `[1, max_chunk_size / chunk_size]` and accumulate
the chunk byte size. -/
def chunk_step (dim : Nat) (acc : Nat × List Nat) : Nat × List Nat :=
  let max_dim := max_chunk_size / acc.1
  let c := clamp dim 1 max_dim
  (acc.1 * c, c :: acc.2)

/-- Chunk dimensions derived by `array_interface::write` when `compress`
is set and the rank is positive: the C++ walks `i = rank - 1 .. 0`
starting from the element size `H5Tget_size(v.ty)`, i.e. a right fold
over the hyperslab shape. -/
def derive_chunk_dims (hs_shape : List Nat) (elt_size : Nat) : List Nat :=
  (hs_shape.foldr chunk_step (elt_size, [])).2

end array_interface

/-- `assert_hdf5_format_as_string` (format.cpp) as a function of the tag
actually read from the group by `read_hdf5_format` (which yields the
empty string when no tag, not even a legacy one, is present). -/
def assert_hdf5_format_as_string (tag tag_expected : String) (ignore_if_absent : Bool) :
    Except String Unit :=
  if ignore_if_absent ∧ tag = "" then Except.ok ()
  else if tag ≠ tag_expected then Except.error "FormatMismatch"
  else Except.ok ()

/-- A flattened fixed-stride string table (`char_buf`, stl/string.hpp).
Strings are modelled as their byte sequences. -/
structure char_buf where
  buffer : List Nat
  lengths : List Nat
deriving DecidableEq

/-- A fixed slot of `to_char_buf`: the string's bytes followed by the
terminating null written by `strcpy` and the zero padding of the
zero-initialized buffer, up to the stride `s`. -/
def char_slot (s : Nat) (x : List Nat) : List Nat := x ++ List.replicate (s - x.length) 0

/-- The per-string stride of `to_char_buf` for a vector of strings:
`size_t s = 1; for (x : v) s = max(s, x.size() + 1);`. -/
def char_stride (v : List (List Nat)) : Nat :=
  v.foldl (fun acc x => max acc (x.length + 1)) 1

/-- The per-string stride of `to_char_buf` for a vector of vectors of
strings: the same maximum taken over all inner strings. -/
def char_stride2 (v : List (List (List Nat))) : Nat :=
  v.foldl (fun acc r => r.foldl (fun a x => max a (x.length + 1)) acc) 1

/-- Maximal inner vector length `lv` computed by `to_char_buf` for a
vector of vectors of strings. -/
def max_inner_length (v : List (List (List Nat))) : Nat :=
  v.foldl (fun acc r => max acc r.length) 0

/-- `to_char_buf` for a vector of strings (stl/vector.cpp): stride
`s = max(length + 1)` over all strings (at least 1); the zero-filled
buffer of size `max(v.size() * s, 1)` is tiled by the disjoint
length-`s` slots written by `strcpy`. -/
def to_char_buf (v : List (List Nat)) : char_buf :=
  let s := char_stride v
  let buffer := if v.length = 0 then List.replicate 1 0 else (v.map (char_slot s)).flatten
  ⟨buffer, [v.length, s]⟩

/-- `to_char_buf` for a vector of vectors of strings (stl/vector.cpp):
stride `s` over all strings, inner count `lv` = maximal inner vector
length; each row is tiled by `lv` slots and a slot with no string
(`j >= v[i].size()`) stays entirely zero, which is exactly the slot of
the empty string `r.getD j []`. -/
def to_char_buf2 (v : List (List (List Nat))) : char_buf :=
  let s := char_stride2 v
  let lv := max_inner_length v
  let buffer :=
    if v.length * lv = 0 then List.replicate 1 0
    else (v.map (fun r => ((List.range lv).map (fun j => char_slot s (r.getD j []))).flatten)).flatten
  ⟨buffer, [v.length, lv, s]⟩

/-- `from_char_buf` for a vector of strings (stl/vector.cpp): slice the
buffer into fixed-stride windows and remove every null byte
(`std::remove` of `'\0'`). -/
def from_char_buf (cb : char_buf) : List (List Nat) :=
  let n := cb.lengths.getD 0 0
  let len := cb.lengths.getD 1 0
  (List.range n).map (fun i => ((cb.buffer.drop (i * len)).take len).filter (fun b => b != 0))

/-- `from_char_buf` for a vector of vectors of strings (stl/vector.cpp):
the flat string index of row `i`, column `j` is `i * lv + j`; every row
receives exactly `lv` strings. -/
def from_char_buf2 (cb : char_buf) : List (List (List Nat)) :=
  let n := cb.lengths.getD 0 0
  let lv := cb.lengths.getD 1 0
  let len := cb.lengths.getD 2 0
  (List.range n).map (fun i =>
    (List.range lv).map (fun j =>
      ((cb.buffer.drop ((i * lv + j) * len)).take len).filter (fun b => b != 0)))

/-- `h5_write` for `std::optional` (stl/optional.hpp): write only when
the optional is engaged; `writeT` is the specialized `h5_write` of the
value type. -/
def h5_write_optional {α β : Type} (writeT : group α → String → β → group α)
    (g : group α) (name : String) (opt : Option β) : group α :=
  match opt with
  | Option.none => g
  | Option.some x => writeT g name x

/-- `h5_read` for `std::optional` (stl/optional.hpp): reset, then read
only when the key exists; `readT` is the specialized `h5_read` of the
value type.  The result is the final state of the optional. -/
def h5_read_optional {α β : Type} (readT : group α → String → Except String β)
    (g : group α) (name : String) : Except String (Option β) :=
  if g.has_key name then (readT g name).map Option.some else Except.ok Option.none

/-- Plain read of a required child, used to instantiate
`h5_read_optional`: a missing key is a `NotFound` failure, as in
`group::open_dataset` (group.cpp). -/
def read_child {α : Type} (g : group α) (name : String) : Except String α :=
  match g.children.lookup name with
  | Option.some x => Except.ok x
  | Option.none => Except.error "NotFound"

end h5

namespace h5.array_interface

/-- C1: for every rank `N` in 1..3 and every stride vector whose view has
positive size, the pair returned by `get_parent_shape_and_h5_strides`
satisfies `parent_shape[0] = view_size` and, for every dimension `d`,
`np_strides[d] = h5_strides[d] * prod(parent_shape[d+1..N-1])`. -/
theorem get_parent_shape_product_identity
    (np : List Nat) (N vs : Nat) (h1 : 1 ≤ N) (h3 : N ≤ 3)
    (hlen : np.length = N) (hvs : 0 < vs) :
    (get_parent_shape_and_h5_strides np N vs).1.getD 0 0 = vs ∧
    ∀ d, d < N →
      np.getD d 0 =
        (get_parent_shape_and_h5_strides np N vs).2.getD d 0 *
          ((get_parent_shape_and_h5_strides np N vs).1.drop (d + 1)).prod := by
  interval_cases N
  · -- rank 1
    rcases np with _ | ⟨a, _ | ⟨b, t⟩⟩ <;> simp_all
    simp [get_parent_shape_and_h5_strides, hvs.ne']
  · -- rank 2
    rcases np with _ | ⟨a, _ | ⟨b, _ | ⟨c, t⟩⟩⟩ <;> simp_all
    constructor
    · simp [get_parent_shape_and_h5_strides, hvs.ne', gps_loop, inner_gcd, div_strides]
    · intro d hd
      interval_cases d
      · simp only [get_parent_shape_and_h5_strides, hvs.ne', gps_loop, inner_gcd, div_strides]
        rcases Nat.eq_zero_or_pos a with rfl | ha
        · simp
        · simp [Nat.div_self ha]
      · simp [get_parent_shape_and_h5_strides, hvs.ne', gps_loop, inner_gcd, div_strides]
  · -- rank 3
    rcases np with _ | ⟨a, _ | ⟨b, _ | ⟨c, _ | ⟨e, t⟩⟩⟩⟩ <;> simp_all
    have hga : Nat.gcd b a ∣ a := Nat.gcd_dvd_right b a
    have hgb : Nat.gcd b a ∣ b := Nat.gcd_dvd_left b a
    constructor
    · simp [get_parent_shape_and_h5_strides, hvs.ne', gps_loop, inner_gcd, div_strides]
    · intro d hd
      interval_cases d
      · simp only [get_parent_shape_and_h5_strides, hvs.ne', gps_loop, inner_gcd, div_strides]
        rcases Nat.eq_zero_or_pos (a / Nat.gcd b a) with h0 | hpos
        · have ha0 : a = 0 := by
            rw [← Nat.div_mul_cancel hga, h0, Nat.zero_mul]
          simp [ha0, h0]
        · simp [Nat.div_self hpos, Nat.div_mul_cancel hga]
      · simp [get_parent_shape_and_h5_strides, hvs.ne', gps_loop, inner_gcd, div_strides,
          Nat.div_mul_cancel hgb]
      · simp [get_parent_shape_and_h5_strides, hvs.ne', gps_loop, inner_gcd, div_strides]

/-- Witness for C1: the identity at the spec's concrete case
`np_strides = {20, 2}`, `view_shape = {5, 5}` (so `view_size = 25`). -/
theorem get_parent_shape_product_identity_witness :
    (get_parent_shape_and_h5_strides [20, 2] 2 25).1.getD 0 0 = 25 ∧
    ∀ d, d < 2 →
      List.getD [20, 2] d 0 =
        (get_parent_shape_and_h5_strides [20, 2] 2 25).2.getD d 0 *
          ((get_parent_shape_and_h5_strides [20, 2] 2 25).1.drop (d + 1)).prod :=
  get_parent_shape_product_identity [20, 2] 2 25 (by decide) (by decide) (by decide)
    (by decide)

/-- C2 fails on the code: on the repository's own test input
`np_strides = {2}`, `view_shape = {5}` (test `GetParentShapeAndH5Strides1D`,
"every other element"), the function returns `parent_shape = {5}` and
`h5_strides = {2}`, so `parent_shape[0] = 5 < view_shape[0] * h5_strides[0] = 10`,
violating the inequality asserted by the test. -/
theorem get_parent_shape_rank1_strided_inequality_fails :
    get_parent_shape_and_h5_strides [2] 1 5 = ([5], [2]) ∧
    ¬ (5 * (get_parent_shape_and_h5_strides [2] 1 5).2.getD 0 0 ≤
        (get_parent_shape_and_h5_strides [2] 1 5).1.getD 0 0) := by
  decide

/-- C3: rank 0 yields two empty vectors; for any rank `N >= 1` a view of
size 0 yields an all-zero parent shape and all-one strides. -/
theorem get_parent_shape_degenerate_cases (np : List Nat) (vs N : Nat) (hN : 1 ≤ N) :
    get_parent_shape_and_h5_strides np 0 vs = ([], []) ∧
    get_parent_shape_and_h5_strides np N 0 = (List.replicate N 0, List.replicate N 1) := by
  refine ⟨by simp [get_parent_shape_and_h5_strides], ?_⟩
  have hN0 : N ≠ 0 := by omega
  simp [get_parent_shape_and_h5_strides, hN0]

/-- Witness for C3 at `np_strides = {3}`, `view_size = 7`, `N = 2`. -/
theorem get_parent_shape_degenerate_cases_witness :
    get_parent_shape_and_h5_strides [3] 0 7 = ([], []) ∧
    get_parent_shape_and_h5_strides [3] 2 0 = (List.replicate 2 0, List.replicate 2 1) :=
  get_parent_shape_degenerate_cases [3] 7 2 (by decide)

end h5.array_interface

namespace h5

/-- C4 counterexample: with `ignore_if_absent = false`, an empty tag
(absent on legacy data) still fails against the expected tag "List",
although the claim predicts failure only for a nonempty differing tag. -/
theorem assert_hdf5_format_empty_tag_cex :
    assert_hdf5_format_as_string "" "List" false = Except.error "FormatMismatch" ∧
    ("" : String) = "" :=
  ⟨rfl, rfl⟩

/-- C4 amended: the assertion succeeds iff the read tag equals the
expected tag or `ignore_if_absent` is set and the tag is empty; in every
other case (including an empty tag with `ignore_if_absent = false`) it
fails with the format-mismatch error. -/
theorem assert_hdf5_format_characterization (tag expected : String) (ig : Bool) :
    (assert_hdf5_format_as_string tag expected ig = Except.ok () ↔
      tag = expected ∨ (ig = true ∧ tag = "")) ∧
    (assert_hdf5_format_as_string tag expected ig = Except.error "FormatMismatch" ↔
      ¬ (tag = expected ∨ (ig = true ∧ tag = ""))) := by
  unfold assert_hdf5_format_as_string
  split_ifs with h1 h2 <;> simp_all

end h5

namespace h5.array_interface

/-- C5: `array_interface::read` fails hard with the type error iff the
datatype classes differ; with classes equal it fails hard with the size
error iff the selected element count (the source slab's size, or the
whole dataset's element count when no slab is given) differs from the
view's slab size; otherwise it succeeds, returning the soft warning flag
`!hdf5_type_equal` for an exact datatype mismatch. -/
theorem read_check_characterization (v : array_view) (ds : dataset_info) (sl : hyperslab) :
    (read v ds sl = Except.error h5_error.incompatibleTypes ↔ v.ty.cls ≠ ds.ty.cls) ∧
    (read v ds sl = Except.error h5_error.incompatibleSizes ↔
      v.ty.cls = ds.ty.cls ∧
        (if sl.empty then ds.lengths.prod else sl.size) ≠ v.slab.size) ∧
    (read v ds sl = Except.ok (! hdf5_type_equal v.ty ds.ty) ↔
      v.ty.cls = ds.ty.cls ∧
        (if sl.empty then ds.lengths.prod else sl.size) = v.slab.size) := by
  unfold read
  split_ifs with h1 h2 <;> simp_all <;> split_ifs <;> simp_all

/-- C6 counterexample: an empty (default-constructed) target slab makes
`write_slice` return silently before any size check, although the view
selects 2 elements while the empty slab's size is 1. -/
theorem write_slice_empty_slab_cex :
    write_slice (array_view.mk (datatype.mk 0 0) [2] (hyperslab.mk [0] [1] [2] [1]) false)
        (datatype.mk 0 0) (hyperslab.mk [] [] [] []) = Except.ok () ∧
    (array_view.mk (datatype.mk 0 0) [2] (hyperslab.mk [0] [1] [2] [1]) false).slab.size ≠
      (hyperslab.mk [] [] [] []).size :=
  ⟨rfl, by decide⟩

/-- C6 amended: for a non-empty target slab, `write_slice` fails with
the incompatible-sizes error iff the element counts differ, fails with
the incompatible-types error iff the counts match but the datatypes are
not `hdf5_type_equal`, and performs the write iff both preconditions
hold; an empty target slab is a silent no-op. -/
theorem write_slice_characterization (v : array_view) (ds_ty : datatype) (sl : hyperslab)
    (hne : sl.empty = false) :
    (write_slice v ds_ty sl = Except.error h5_error.incompatibleSizes ↔ v.slab.size ≠ sl.size) ∧
    (write_slice v ds_ty sl = Except.error h5_error.incompatibleTypes ↔
      v.slab.size = sl.size ∧ hdf5_type_equal v.ty ds_ty = false) ∧
    (write_slice v ds_ty sl = Except.ok () ↔
      v.slab.size = sl.size ∧ hdf5_type_equal v.ty ds_ty = true) := by
  unfold write_slice
  rw [hne]
  split_ifs with h1 h2 <;> simp_all

/-- Witness for the amended C6 at a view selecting 2 elements of a
1-dimensional dataset and a matching non-empty target slab. -/
theorem write_slice_characterization_witness :
    (write_slice (array_view.mk (datatype.mk 0 0) [2] (hyperslab.mk [0] [1] [2] [1]) false)
        (datatype.mk 0 0) (hyperslab.mk [0] [1] [2] [1]) =
          Except.error h5_error.incompatibleSizes ↔
      (array_view.mk (datatype.mk 0 0) [2] (hyperslab.mk [0] [1] [2] [1]) false).slab.size ≠
        (hyperslab.mk [0] [1] [2] [1]).size) ∧
    (write_slice (array_view.mk (datatype.mk 0 0) [2] (hyperslab.mk [0] [1] [2] [1]) false)
        (datatype.mk 0 0) (hyperslab.mk [0] [1] [2] [1]) =
          Except.error h5_error.incompatibleTypes ↔
      (array_view.mk (datatype.mk 0 0) [2] (hyperslab.mk [0] [1] [2] [1]) false).slab.size =
        (hyperslab.mk [0] [1] [2] [1]).size ∧
        hdf5_type_equal (datatype.mk 0 0) (datatype.mk 0 0) = false) ∧
    (write_slice (array_view.mk (datatype.mk 0 0) [2] (hyperslab.mk [0] [1] [2] [1]) false)
        (datatype.mk 0 0) (hyperslab.mk [0] [1] [2] [1]) = Except.ok () ↔
      (array_view.mk (datatype.mk 0 0) [2] (hyperslab.mk [0] [1] [2] [1]) false).slab.size =
        (hyperslab.mk [0] [1] [2] [1]).size ∧
        hdf5_type_equal (datatype.mk 0 0) (datatype.mk 0 0) = true) :=
  write_slice_characterization
    (array_view.mk (datatype.mk 0 0) [2] (hyperslab.mk [0] [1] [2] [1]) false)
    (datatype.mk 0 0) (hyperslab.mk [0] [1] [2] [1]) (by decide)

end h5.array_interface

namespace h5

/-- In an association list in which `lookup key` fails, no pair carries
the key. -/
theorem filter_eq_nil_of_lookup_none {α : Type} (l : List (String × α)) (key : String)
    (h : l.lookup key = Option.none) : l.filter (fun p => p.1 == key) = [] := by
  induction l with
  | nil => rfl
  | cons p t ih =>
    rcases p with ⟨k, val⟩
    rw [List.lookup_cons] at h
    by_cases hk : (key == k) = true
    · simp [hk] at h
    · have hk' : (key == k) = false := by simpa using hk
      have hk2 : (k == key) = false := by
        simp only [beq_eq_false_iff_ne] at hk' ⊢
        exact fun hkk => hk' hkk.symm
      rw [hk'] at h
      simp only [List.filter_cons, hk2, if_neg]
      exact ih h

/-- After `group::unlink key`, no child carries the key. -/
theorem unlink_filter {α : Type} (g : group α) (key : String) :
    (g.unlink key).children.filter (fun p => p.1 == key) = [] := by
  unfold group.unlink
  split_ifs with h
  · rw [List.filter_filter]
    apply List.filter_eq_nil_iff.mpr
    intro a _
    simp [bne]
  · rcases ho : g.children.lookup key with _ | val
    · exact filter_eq_nil_of_lookup_none _ _ ho
    · exfalso
      apply h
      simp [group.has_key, ho]

/-- Looking up a key skips a prefix that contains no pair with that key. -/
theorem lookup_append_left_nil {α : Type} (l m : List (String × α)) (key : String)
    (h : l.filter (fun p => p.1 == key) = []) : (l ++ m).lookup key = m.lookup key := by
  induction l with
  | nil => rfl
  | cons p t ih =>
    rcases p with ⟨k, val⟩
    rw [List.filter_cons] at h
    by_cases hk : ((k, val).1 == key) = true
    · rw [if_pos hk] at h
      simp at h
    · rw [if_neg hk] at h
      simp only at hk
      have hk' : (key == k) = false := by
        have h2 : (k == key) = false := by simpa using hk
        simp only [beq_eq_false_iff_ne] at h2 ⊢
        exact fun e => h2 e.symm
      rw [List.cons_append, List.lookup_cons, hk']
      exact ih h

end h5

namespace h5.array_interface

/-- C7: writing a dataset twice under the same name leaves exactly one
child with that name, holding the second payload (the write first
unlinks the pre-existing child), while `write_attribute` fails with the
already-exists error whenever an attribute of that name is present,
never overwriting it. -/
theorem write_overwrite_and_attribute_asymmetry {α : Type} (g : group α) (name : String)
    (x y : α) (attrs : List (String × α)) (a : α)
    (ha : attrs.lookup name = Option.some a) :
    (write (write g name x) name y).children.filter (fun p => p.1 == name) = [(name, y)] ∧
    (write (write g name x) name y).children.lookup name = Option.some y ∧
    write_attribute attrs name x = Except.error "AlreadyExists" := by
  refine ⟨?_, ?_, ?_⟩
  · unfold write
    rw [List.filter_append, unlink_filter]
    simp [List.filter_cons]
  · unfold write
    rw [lookup_append_left_nil _ _ _ (unlink_filter _ _)]
    simp [List.lookup_cons]
  · unfold write_attribute
    simp [ha]

/-- Witness for C7: overwriting the key "k" in a one-child group and
re-creating the attribute "k". -/
theorem write_overwrite_and_attribute_asymmetry_witness :
    (write (write (group.mk [("k", 7)]) "k" 1) "k" 2).children.filter
        (fun p => p.1 == "k") = [("k", 2)] ∧
    (write (write (group.mk [("k", 7)]) "k" 1) "k" 2).children.lookup "k" =
      Option.some 2 ∧
    write_attribute [("k", 5)] "k" 1 = Except.error "AlreadyExists" :=
  write_overwrite_and_attribute_asymmetry (group.mk [("k", 7)]) "k" 1 2 [("k", 5)] 5
    (by decide)

/-- Invariant of the chunk-shape loop: starting from a positive byte
count that is at most the ceiling, every produced extent is at least 1,
the byte count stays positive and at most the ceiling, and the byte
count is the initial count times the product of the produced extents,
for every suffix of the extents. -/
theorem chunk_foldr_invariant (l : List Nat) (cs : Nat) (h1 : 0 < cs)
    (h2 : cs ≤ max_chunk_size) :
    0 < (l.foldr chunk_step (cs, [])).1 ∧
    (l.foldr chunk_step (cs, [])).1 ≤ max_chunk_size ∧
    (∀ c ∈ (l.foldr chunk_step (cs, [])).2, 1 ≤ c) ∧
    (∀ k, cs * ((l.foldr chunk_step (cs, [])).2.drop k).prod ≤ max_chunk_size) ∧
    (l.foldr chunk_step (cs, [])).1 = cs * ((l.foldr chunk_step (cs, [])).2).prod := by
  induction l with
  | nil =>
    refine ⟨h1, h2, by simp, ?_, by simp⟩
    intro k
    simpa using h2
  | cons d t ih =>
    obtain ⟨ipos, ile, idims, idrop, ieq⟩ := ih
    rw [List.foldr_cons]
    have hm1 : 1 ≤ max_chunk_size / (t.foldr chunk_step (cs, [])).1 :=
      (Nat.one_le_div_iff ipos).mpr ile
    have hc1 : 1 ≤ clamp d 1 (max_chunk_size / (t.foldr chunk_step (cs, [])).1) := by
      unfold clamp
      split_ifs <;> omega
    have hcm : clamp d 1 (max_chunk_size / (t.foldr chunk_step (cs, [])).1) ≤
        max_chunk_size / (t.foldr chunk_step (cs, [])).1 := by
      unfold clamp
      split_ifs <;> omega
    have hle : (t.foldr chunk_step (cs, [])).1 *
        clamp d 1 (max_chunk_size / (t.foldr chunk_step (cs, [])).1) ≤ max_chunk_size := by
      calc (t.foldr chunk_step (cs, [])).1 *
          clamp d 1 (max_chunk_size / (t.foldr chunk_step (cs, [])).1)
        ≤ (t.foldr chunk_step (cs, [])).1 *
            (max_chunk_size / (t.foldr chunk_step (cs, [])).1) :=
          Nat.mul_le_mul_left _ hcm
      _ = (max_chunk_size / (t.foldr chunk_step (cs, [])).1) *
            (t.foldr chunk_step (cs, [])).1 := Nat.mul_comm _ _
      _ ≤ max_chunk_size := Nat.div_mul_le_self _ _
    refine ⟨?_, ?_, ?_, ?_, ?_⟩
    · exact Nat.mul_pos ipos hc1
    · exact hle
    · intro c hc
      rcases List.mem_cons.mp hc with rfl | hc
      · exact hc1
      · exact idims c hc
    · intro k
      rcases k with _ | k
      · simp only [List.drop_zero, List.prod_cons]
        calc cs * (clamp d 1 (max_chunk_size / (t.foldr chunk_step (cs, [])).1) *
              ((t.foldr chunk_step (cs, [])).2).prod)
            = (cs * ((t.foldr chunk_step (cs, [])).2).prod) *
              clamp d 1 (max_chunk_size / (t.foldr chunk_step (cs, [])).1) := by ring
          _ = (t.foldr chunk_step (cs, [])).1 *
              clamp d 1 (max_chunk_size / (t.foldr chunk_step (cs, [])).1) := by rw [ieq]
          _ ≤ max_chunk_size := hle
      · simpa using idrop k
    · simp only [chunk_step, List.prod_cons]
      rw [ieq]
      ring

/-- C8: when `array_interface::write` derives compression chunk
dimensions (element size positive and itself below the ceiling), every
derived chunk extent is at least 1 and, after every dimension is
processed (walking from the fastest-varying dimension outward, i.e. on
every suffix of the chunk shape), the cumulative chunk byte size
`elt_size * prod(chunk_dims[k..])` stays at or below `2^32 - 1`. -/
theorem derive_chunk_dims_bounded (hs_shape : List Nat) (elt_size : Nat)
    (h1 : 0 < elt_size) (h2 : elt_size ≤ max_chunk_size) :
    (∀ c ∈ derive_chunk_dims hs_shape elt_size, 1 ≤ c) ∧
    ∀ k, elt_size * ((derive_chunk_dims hs_shape elt_size).drop k).prod ≤ max_chunk_size := by
  obtain ⟨-, -, hdims, hdrop, -⟩ := chunk_foldr_invariant hs_shape elt_size h1 h2
  exact ⟨hdims, hdrop⟩

/-- Witness for C8: an 8-byte element type and a hyperslab shape whose
first extent alone (2^40) would overflow the ceiling. -/
theorem derive_chunk_dims_bounded_witness :
    (∀ c ∈ derive_chunk_dims [2 ^ 40, 3] 8, 1 ≤ c) ∧
    ∀ k, 8 * ((derive_chunk_dims [2 ^ 40, 3] 8).drop k).prod ≤ max_chunk_size :=
  derive_chunk_dims_bounded [2 ^ 40, 3] 8 (by decide) (by decide)

end h5.array_interface

namespace h5

/-- C10: writing a disengaged optional leaves the group unchanged
(creates no child); reading an optional from a group without the key
succeeds with a disengaged optional instead of failing with NotFound;
reading it from a group that has the key yields an engaged optional
holding the value read. -/
theorem optional_write_read {α β : Type}
    (writeT : group α → String → β → group α)
    (readT : group α → String → Except String β)
    (g g₁ g₂ : group α) (name : String) (x : β)
    (h1 : g₁.has_key name = false) (h2 : g₂.has_key name = true)
    (hr : readT g₂ name = Except.ok x) :
    h5_write_optional writeT g name Option.none = g ∧
    h5_read_optional readT g₁ name = Except.ok Option.none ∧
    h5_read_optional readT g₂ name = Except.ok (Option.some x) := by
  refine ⟨rfl, ?_, ?_⟩
  · unfold h5_read_optional
    simp [h1]
  · unfold h5_read_optional
    simp [h2, hr]
    rfl

/-- Witness for C10, instantiated with the dataset write of the
array-interface layer and the plain required-child read. -/
theorem optional_write_read_witness :
    h5_write_optional (fun (g : group Nat) (n : String) (v : Nat) => array_interface.write g n v)
        (group.mk [("a", 1)]) "k" Option.none = group.mk [("a", 1)] ∧
    h5_read_optional read_child (group.mk ([] : List (String × Nat))) "k" =
      Except.ok Option.none ∧
    h5_read_optional read_child (group.mk [("k", 5)]) "k" = Except.ok (Option.some 5) :=
  optional_write_read (fun g n v => array_interface.write g n v) read_child
    (group.mk [("a", 1)]) (group.mk []) (group.mk [("k", 5)]) "k" 5 (by decide) (by decide)
    (by rfl)

end h5

namespace h5

/-- A fold of `max` steps never goes below its initial value. -/
theorem foldl_max_init_le {α : Type} (f : α → Nat) (l : List α) (init : Nat) :
    init ≤ l.foldl (fun a x => max a (f x)) init := by
  induction l generalizing init with
  | nil => exact Nat.le_refl _
  | cons b t ih => exact Nat.le_trans (Nat.le_max_left init (f b)) (ih (max init (f b)))

/-- A fold of `max` steps dominates every contribution. -/
theorem foldl_max_le_of_mem {α : Type} (f : α → Nat) (l : List α) (x : α) (hx : x ∈ l) :
    ∀ init, f x ≤ l.foldl (fun a x => max a (f x)) init := by
  induction l with
  | nil => cases hx
  | cons b t ih =>
    intro init
    rcases List.mem_cons.mp hx with rfl | hx'
    · exact Nat.le_trans (Nat.le_max_right init (f x)) (foldl_max_init_le f t _)
    · exact ih hx' _

/-- The 1-D stride is at least 1. -/
theorem char_stride_pos (v : List (List Nat)) : 1 ≤ char_stride v :=
  foldl_max_init_le _ v 1

/-- The 1-D stride dominates every string length plus one. -/
theorem char_stride_ge (v : List (List Nat)) (x : List Nat) (hx : x ∈ v) :
    x.length + 1 ≤ char_stride v :=
  foldl_max_le_of_mem (fun x => x.length + 1) v x hx 1

/-- The length of a slot whose string fits the stride is the stride. -/
theorem char_slot_length (s : Nat) (x : List Nat) (h : x.length ≤ s) :
    (char_slot s x).length = s := by
  unfold char_slot
  simp only [List.length_append, List.length_replicate]
  omega

/-- Filtering the null bytes out of a slot recovers the string, provided
the string itself contains no null byte. -/
theorem char_slot_filter (s : Nat) (x : List Nat) (hx : 0 ∉ x) :
    (char_slot s x).filter (fun b => b != 0) = x := by
  unfold char_slot
  rw [List.filter_append]
  have h1 : (List.replicate (s - x.length) 0).filter (fun b => b != 0) = [] := by
    apply List.filter_eq_nil_iff.mpr
    intro a ha
    rw [List.eq_of_mem_replicate ha]
    simp
  have h2 : x.filter (fun b => b != 0) = x := by
    apply List.filter_eq_self.mpr
    intro a ha
    have hne : a ≠ 0 := by
      intro h
      rw [h] at ha
      exact hx ha
    simpa using hne
  rw [h1, h2, List.append_nil]

/-- Extracting the `i`-th fixed-stride window from a tiling of
equal-length slots yields the `i`-th slot. -/
theorem slots_extract (s : Nat) (L : List (List Nat)) (hs : ∀ l ∈ L, l.length = s) :
    ∀ i, i < L.length → (L.flatten.drop (i * s)).take s = L.getD i [] := by
  induction L with
  | nil => intro i hi; simp at hi
  | cons l t ih =>
    intro i hi
    have hl : l.length = s := hs l (List.mem_cons_self l t)
    rcases i with _ | i
    · rw [Nat.zero_mul, List.drop_zero, List.flatten_cons, ← hl, List.take_left]
      rfl
    · rw [List.flatten_cons, Nat.succ_mul, Nat.add_comm (i * s) s, ← hl, List.drop_append]
      rw [hl]
      exact ih (fun l' hl' => hs l' (List.mem_cons_of_mem l hl')) i (by simpa using hi)

/-- Mapping `f` of `getD` over the index range of a list is mapping `f`
over the list. -/
theorem range_map_comp_getD {α β : Type} (v : List α) (d : α) (f : α → β) :
    (List.range v.length).map (fun i => f (v.getD i d)) = v.map f := by
  induction v with
  | nil => rfl
  | cons a t ih =>
    rw [List.length_cons, List.range_succ_eq_map, List.map_cons, List.map_map]
    have h : ((fun i => f ((a :: t).getD i d)) ∘ Nat.succ) = fun i => f (t.getD i d) := by
      funext i
      simp [List.getD_cons_succ]
    rw [h, ih]
    simp [List.getD_cons_zero]

/-- Mapping `getD` over the index range of a list recovers the list. -/
theorem range_map_getD {α : Type} (v : List α) (d : α) :
    (List.range v.length).map (fun i => v.getD i d) = v := by
  have h := range_map_comp_getD v d id
  simpa using h

/-- C9 helper: the 1-D char-buffer roundtrip is the identity on string
tables without embedded null bytes. -/
theorem from_to_char_buf_id (v : List (List Nat)) (hv : ∀ x ∈ v, 0 ∉ x) :
    from_char_buf (to_char_buf v) = v := by
  rcases hn : v.length with _ | n
  · rw [List.length_eq_zero.mp hn]
    rfl
  · have hne : ¬ v.length = 0 := by omega
    have hslot : ∀ l ∈ v.map (char_slot (char_stride v)), l.length = char_stride v := by
      intro l hl
      rcases List.mem_map.mp hl with ⟨x, hx, rfl⟩
      exact char_slot_length _ _ (by have := char_stride_ge v x hx; omega)
    simp only [from_char_buf, to_char_buf, hne, if_neg, if_false,
      List.getD_cons_zero, List.getD_cons_succ]
    rw [List.map_congr_left (g := fun i => v.getD i []) ?_, range_map_getD]
    intro i hi
    rw [List.mem_range] at hi
    rw [slots_extract (char_stride v) _ hslot i (by simpa using hi)]
    rw [List.getD_eq_getElem _ _ (by simpa using hi), List.getElem_map]
    rw [char_slot_filter _ _ (hv _ (List.getElem_mem _))]
    exact (List.getD_eq_getElem v [] hi).symm

end h5

namespace h5

/-- The nested max fold of the 2-D stride never goes below its initial
value. -/
theorem foldl_nested_init_le (v : List (List (List Nat))) (init : Nat) :
    init ≤ v.foldl (fun acc r => r.foldl (fun a x => max a (x.length + 1)) acc) init := by
  induction v generalizing init with
  | nil => exact Nat.le_refl _
  | cons r t ih =>
    rw [List.foldl_cons]
    exact Nat.le_trans (foldl_max_init_le (fun x => x.length + 1) r init) (ih _)

/-- The nested max fold of the 2-D stride dominates every inner string
contribution. -/
theorem foldl_nested_le_of_mem (v : List (List (List Nat))) (r : List (List Nat))
    (x : List Nat) (hr : r ∈ v) (hx : x ∈ r) :
    ∀ init, x.length + 1 ≤
      v.foldl (fun acc r => r.foldl (fun a x => max a (x.length + 1)) acc) init := by
  induction v with
  | nil => cases hr
  | cons b t ih =>
    intro init
    rw [List.foldl_cons]
    rcases List.mem_cons.mp hr with rfl | hr'
    · exact Nat.le_trans (foldl_max_le_of_mem (fun x => x.length + 1) r x hx init)
        (foldl_nested_init_le t _)
    · exact ih hr' _

/-- The 2-D stride is at least 1. -/
theorem char_stride2_pos (v : List (List (List Nat))) : 1 ≤ char_stride2 v :=
  foldl_nested_init_le v 1

/-- The 2-D stride dominates every string length plus one. -/
theorem char_stride2_ge (v : List (List (List Nat))) (r : List (List Nat)) (x : List Nat)
    (hr : r ∈ v) (hx : x ∈ r) : x.length + 1 ≤ char_stride2 v :=
  foldl_nested_le_of_mem v r x hr hx 1

/-- The maximal inner length dominates every row length. -/
theorem max_inner_length_ge (v : List (List (List Nat))) (r : List (List Nat)) (hr : r ∈ v) :
    r.length ≤ max_inner_length v :=
  foldl_max_le_of_mem (fun r => r.length) v r hr 0

/-- Indexing the flattening of a list of equal-length rows at the flat
index `i * lv + j` is indexing row `i` at column `j`. -/
theorem flatten_getD_grid {β : Type} (L : List (List β)) (lv : Nat) (d : β)
    (hrow : ∀ r ∈ L, r.length = lv) :
    ∀ i j, i < L.length → j < lv → L.flatten.getD (i * lv + j) d = (L.getD i []).getD j d := by
  induction L with
  | nil => intro i j hi hj; simp at hi
  | cons r t ih =>
    intro i j hi hj
    have hr : r.length = lv := hrow r (List.mem_cons_self r t)
    rcases i with _ | i
    · rw [Nat.zero_mul, Nat.zero_add, List.flatten_cons,
        List.getD_append _ _ _ _ (by omega)]
      rfl
    · rw [List.flatten_cons]
      have hidx : (i + 1) * lv + j = r.length + (i * lv + j) := by
        rw [hr]
        ring
      rw [hidx, List.getD_append_right _ _ _ _ (by omega), Nat.add_sub_cancel_left]
      rw [ih (fun r' hr' => hrow r' (List.mem_cons_of_mem r hr')) i j (by simpa using hi) hj]
      rfl

/-- Mapping `getD` over a range that extends past the list pads the
result with the default element. -/
theorem range_map_getD_pad {α : Type} (r : List α) (d : α) :
    ∀ lv, r.length ≤ lv →
      (List.range lv).map (fun j => r.getD j d) = r ++ List.replicate (lv - r.length) d := by
  induction r with
  | nil =>
    intro lv _
    simp [List.map_const']
  | cons a t ih =>
    intro lv hlv
    rcases lv with _ | lv
    · simp at hlv
    · rw [List.range_succ_eq_map, List.map_cons, List.map_map]
      have h : ((fun j => (a :: t).getD j d) ∘ Nat.succ) = fun j => t.getD j d := by
        funext j
        simp [List.getD_cons_succ]
      rw [h, ih lv (by simpa using hlv)]
      simp [Nat.succ_sub_succ]

end h5

namespace h5

/-- The lengths of a list of equal-length rows. -/
theorem map_length_eq_replicate {β : Type} (L : List (List β)) (lv : Nat)
    (h : ∀ r ∈ L, r.length = lv) : L.map List.length = List.replicate L.length lv := by
  induction L with
  | nil => rfl
  | cons r t ih =>
    rw [List.map_cons, List.length_cons, List.replicate_succ, h r (List.mem_cons_self r t),
      ih (fun r' hr' => h r' (List.mem_cons_of_mem r hr'))]

/-- The buffer built by `to_char_buf2` for a table with at least one row
and a positive inner count is the tiling of all `n * lv` slots in flat
row-major order. -/
theorem to_char_buf2_buffer (w : List (List (List Nat))) (hn : w.length ≠ 0)
    (hlv : max_inner_length w ≠ 0) :
    (to_char_buf2 w).buffer =
      ((w.map (fun r => (List.range (max_inner_length w)).map
          (fun j => char_slot (char_stride2 w) (r.getD j [])))).flatten).flatten := by
  have hmul : ¬ (w.length * max_inner_length w = 0) := by
    intro h
    rcases Nat.mul_eq_zero.mp h with h | h
    · exact hn h
    · exact hlv h
  simp only [to_char_buf2]
  rw [if_neg hmul]
  rw [List.flatten_flatten, List.map_map]
  rfl

/-- Extracting and null-stripping the flat cell `(i, j)` of the 2-D
char buffer yields the string stored there (the empty string for a
padding slot). -/
theorem char_buf2_cell (w : List (List (List Nat))) (hw : ∀ r ∈ w, ∀ x ∈ r, 0 ∉ x)
    (i j : Nat) (hi : i < w.length) (hj : j < max_inner_length w) :
    (((to_char_buf2 w).buffer.drop
        ((i * max_inner_length w + j) * char_stride2 w)).take (char_stride2 w)).filter
      (fun b => b != 0) = (w.getD i []).getD j [] := by
  have hn : w.length ≠ 0 := by omega
  have hlv0 : max_inner_length w ≠ 0 := by omega
  have hrowlen : ∀ row ∈ w.map (fun r => (List.range (max_inner_length w)).map
      (fun j => char_slot (char_stride2 w) (r.getD j []))),
      row.length = max_inner_length w := by
    intro row hrow
    rcases List.mem_map.mp hrow with ⟨r, hr, rfl⟩
    simp
  have hslotlen : ∀ l ∈ (w.map (fun r => (List.range (max_inner_length w)).map
      (fun j => char_slot (char_stride2 w) (r.getD j [])))).flatten,
      l.length = char_stride2 w := by
    intro l hl
    rcases List.mem_flatten.mp hl with ⟨row, hrow, hlrow⟩
    rcases List.mem_map.mp hrow with ⟨r, hr, rfl⟩
    rcases List.mem_map.mp hlrow with ⟨jj, hjj, rfl⟩
    apply char_slot_length
    by_cases hjr : jj < r.length
    · rw [List.getD_eq_getElem r [] hjr]
      have := char_stride2_ge w r (r[jj]) hr (List.getElem_mem hjr)
      omega
    · rw [List.getD_eq_default _ _ (by omega)]
      exact Nat.zero_le _
  have hflatlen : (w.map (fun r => (List.range (max_inner_length w)).map
      (fun j => char_slot (char_stride2 w) (r.getD j [])))).flatten.length =
      w.length * max_inner_length w := by
    rw [List.length_flatten, map_length_eq_replicate _ _ hrowlen, List.sum_replicate,
      smul_eq_mul, List.length_map]
  have hidx : i * max_inner_length w + j <
      (w.map (fun r => (List.range (max_inner_length w)).map
        (fun j => char_slot (char_stride2 w) (r.getD j [])))).flatten.length := by
    rw [hflatlen]
    have h1 : i * max_inner_length w + j < (i + 1) * max_inner_length w := by
      rw [Nat.succ_mul]
      omega
    have h2 : (i + 1) * max_inner_length w ≤ w.length * max_inner_length w :=
      Nat.mul_le_mul_right _ hi
    omega
  rw [to_char_buf2_buffer w hn hlv0]
  rw [slots_extract (char_stride2 w) _ hslotlen _ hidx]
  rw [flatten_getD_grid _ (max_inner_length w) [] hrowlen i j (by simpa using hi) hj]
  have hRSi : (w.map (fun r => (List.range (max_inner_length w)).map
      (fun j => char_slot (char_stride2 w) (r.getD j [])))).getD i [] =
      (List.range (max_inner_length w)).map
        (fun jj => char_slot (char_stride2 w) ((w.getD i []).getD jj [])) := by
    rw [List.getD_eq_getElem _ [] (by simpa using hi), List.getElem_map,
      List.getD_eq_getElem w [] hi]
  rw [hRSi]
  rw [List.getD_eq_getElem _ ([] : List Nat) (by simpa using hj), List.getElem_map,
    List.getElem_range]
  apply char_slot_filter
  by_cases hjr : j < (w.getD i []).length
  · rw [List.getD_eq_getElem _ [] hjr]
    have hwi : w.getD i [] ∈ w := by
      rw [List.getD_eq_getElem w [] hi]
      exact List.getElem_mem hi
    exact hw _ hwi _ (List.getElem_mem hjr)
  · rw [List.getD_eq_default _ _ (by omega)]
    exact List.not_mem_nil 0

/-- C9 helper: the 2-D char-buffer roundtrip restores every row padded
with empty strings up to the maximal inner length. -/
theorem from_to_char_buf2_pad (w : List (List (List Nat)))
    (hw : ∀ r ∈ w, ∀ x ∈ r, 0 ∉ x) :
    from_char_buf2 (to_char_buf2 w) =
      w.map (fun r => r ++ List.replicate (max_inner_length w - r.length) ([] : List Nat)) := by
  by_cases hn : w.length = 0
  · rw [List.length_eq_zero.mp hn]
    rfl
  by_cases hlv : max_inner_length w = 0
  · have hrow : ∀ r ∈ w, r = [] := by
      intro r hr
      have h := max_inner_length_ge w r hr
      exact List.length_eq_zero.mp (by omega)
    have hmul : w.length * max_inner_length w = 0 := by
      rw [hlv, Nat.mul_zero]
    simp only [from_char_buf2, to_char_buf2]
    rw [if_pos hmul]
    simp only [List.getD_cons_zero, List.getD_cons_succ, hlv, List.range_zero, List.map_nil]
    rw [List.map_const']
    rw [List.map_congr_left (g := fun r => ([] : List (List Nat)))
      (fun r hr => by rw [hrow r hr]; simp)]
    rw [List.map_const', List.length_range]
  · simp only [from_char_buf2]
    have hlen : (to_char_buf2 w).lengths = [w.length, max_inner_length w, char_stride2 w] := by
      simp [to_char_buf2]
    rw [hlen]
    simp only [List.getD_cons_zero, List.getD_cons_succ]
    rw [← range_map_comp_getD w []
      (fun r => r ++ List.replicate (max_inner_length w - r.length) ([] : List Nat))]
    apply List.map_congr_left
    intro i hi
    rw [List.mem_range] at hi
    have hrlen : (w.getD i []).length ≤ max_inner_length w := by
      rw [List.getD_eq_getElem w [] hi]
      exact max_inner_length_ge w _ (List.getElem_mem hi)
    rw [← range_map_getD_pad (w.getD i []) [] (max_inner_length w) hrlen]
    apply List.map_congr_left
    intro j hj
    rw [List.mem_range] at hj
    exact char_buf2_cell w hw i j hi hj

/-- C9 counterexample: the ragged table `{{"a"}, {}}` does not round
trip; the missing slot of the second row is restored as an empty string,
so the result is `{{"a"}, {""}}`. -/
theorem char_buf_ragged_cex :
    from_char_buf2 (to_char_buf2 [[[97]], []]) = [[[97]], [[]]] ∧
    ([[[97]], [[]]] : List (List (List Nat))) ≠ [[[97]], []] := by
  decide

/-- C9 amended: for byte-string tables without embedded null bytes, the
1-D roundtrip `from_char_buf (to_char_buf v)` recovers `v` exactly,
while the 2-D roundtrip recovers every inner vector padded with empty
strings up to the maximal inner length (exact recovery only for tables
whose rows all have that length). -/
theorem char_buf_roundtrip (v : List (List Nat)) (w : List (List (List Nat)))
    (hv : ∀ x ∈ v, 0 ∉ x) (hw : ∀ r ∈ w, ∀ x ∈ r, 0 ∉ x) :
    from_char_buf (to_char_buf v) = v ∧
    from_char_buf2 (to_char_buf2 w) =
      w.map (fun r => r ++ List.replicate (max_inner_length w - r.length) ([] : List Nat)) :=
  ⟨from_to_char_buf_id v hv, from_to_char_buf2_pad w hw⟩

/-- Witness for the amended C9 at the tables `{"a", "bc"}` and
`{{"a", "b"}, {"c"}}` (bytes 97, 98, 99). -/
theorem char_buf_roundtrip_witness :
    from_char_buf (to_char_buf [[97], [98, 99]]) = [[97], [98, 99]] ∧
    from_char_buf2 (to_char_buf2 [[[97], [98]], [[99]]]) =
      [[[97], [98]], [[99]]].map
        (fun r => r ++ List.replicate (max_inner_length [[[97], [98]], [[99]]] - r.length)
          ([] : List Nat)) :=
  char_buf_roundtrip [[97], [98, 99]] [[[97], [98]], [[99]]] (by decide) (by decide)

end h5
